import Mathlib

/-!
Verification development for the artifact-manifest client
(src/wandb/apis/artifacts.py).

The Python source is shallowly embedded: the filesystem is an explicit value
(a finite map from path to byte content), dictionaries are insertion-ordered
association lists (as in Python 3.7+), fallible operations return Except, and
the remote registry plus the file pusher are modelled as a deterministic
response oracle plus an explicit trace of the calls the client issues.
-/

/-- Error taxonomy of the client, following the names of spec section 7.
The source raises ValueError or Exception at each site; every raise site of
the source corresponds to exactly one case here.  typeError models a Python
TypeError or AttributeError raised by the runtime rather than by an explicit
raise statement, and jsonParse models a json.load parse failure. -/
inductive Err where
  | invalidInput
  | duplicateName
  | ambiguousMetadata
  | serialization
  | ioError
  | unexpectedState
  | notSaved
  | typeError
  | jsonParse
  deriving DecidableEq

/-- Left and right brace characters, kept as named constants. -/
def lbrace : Char := Char.ofNat 123

/-- Right brace character. -/
def rbrace : Char := Char.ofNat 125

/-- Computes the part of a path after the last slash, as os.path.basename does
for POSIX paths (basename of a path ending in a slash is empty). -/
def basename (p : String) : String :=
  String.mk (p.toList.foldl (fun acc c => if c = '/' then [] else acc ++ [c]) [])

/-- Tests whether the first character list is a leading segment of the second. -/
def leadsWith : List Char → List Char → Bool
  | [], _ => true
  | _ :: _, [] => false
  | a :: as, b :: bs => a = b && leadsWith as bs

/-- Computes the part of a path before the last slash, as os.path.dirname does
for POSIX paths. -/
def dirname (p : String) : String :=
  let cs := ((p.toList.reverse.dropWhile (fun c => ¬ c = '/')).drop 1).reverse
  match cs, p.toList with
  | [], '/' :: _ => "/"
  | _, _ => String.mk cs

/-- Filesystem model: a current working directory and a finite map from file
path to byte content (both as strings).  Directories are implicit: a path is a
directory when some file lives strictly below it.  The map order models the
traversal order of os.walk. -/
structure Fs where
  cwd : String
  files : List (String × String)

/-- Tests os.path.isfile against the filesystem model. -/
def isFile (fs : Fs) (p : String) : Bool :=
  (fs.files.lookup p).isSome

/-- Tests os.path.isdir against the filesystem model: a path is a directory
when some recorded file path extends it past a slash. -/
def isDir (fs : Fs) (p : String) : Bool :=
  fs.files.any (fun q => leadsWith (p ++ "/").toList q.1.toList)

/-- Models Python dict assignment on an insertion-ordered association list:
an existing key keeps its position and gets the new value, a new key is
appended at the end. -/
def dictInsert (m : List (String × String)) (k v : String) : List (String × String) :=
  if (m.lookup k).isSome then m.map (fun p => if p.1 = k then (k, v) else p)
  else m ++ [(k, v)]

/-- Models os.path.abspath: an absolute path is returned unchanged, a relative
path is resolved against the working directory. -/
def abspath (fs : Fs) (p : String) : String :=
  if leadsWith "/".toList p.toList then p else fs.cwd ++ "/" ++ p

/-- Models the os.walk loop of user_paths_to_path_specs on a directory root:
every file strictly below the root contributes its path relative to the root
(slash separated) as artifact path, mapped to its full local path. -/
def walk (fs : Fs) (root : String) : List (String × String) :=
  fs.files.foldl
    (fun acc q =>
      if leadsWith (root ++ "/").toList q.1.toList then
        dictInsert acc (String.mk (q.1.toList.drop (root.toList.length + 1))) q.1
      else acc)
    []

/-- Models the digest of util.md5_file as a deterministic fingerprint of the
byte content alone.  The spec (sections 1 and 4.2) leaves the concrete hash
algorithm out of scope and relies only on it being a function of the bytes,
applied uniformly; this model keeps exactly that contract. -/
def hashBytes (s : String) : String :=
  "md5:" ++ toString (s.toList.foldl (fun h c => (h * 131 + c.toNat) % (2 ^ 64)) 0)

/-- Models hash_file: reads the file content and fingerprints it, failing with
an IO error when the file is absent. -/
def hash_file (fs : Fs) (path : String) : Except Err String :=
  match fs.files.lookup path with
  | none => .error .ioError
  | some content => .ok (hashBytes content)

/-- JSON documents as Python json sees them.  Numbers are split into integers,
finite decimal floats (mantissa times a power of ten, a deterministic stand-in
for the repr of a finite Python float), and the three non-finite float values
that allow_nan=False rejects. -/
inductive Json where
  | null
  | bool (b : Bool)
  | int (n : Int)
  | float (mantissa : Int) (exp10 : Int)
  | nan
  | inf
  | ninf
  | str (s : String)
  | arr (xs : List Json)
  | obj (kvs : List (String × Json))

mutual

/-- Tests whether a document contains a non-finite float anywhere, which is
exactly the condition under which json.dump with allow_nan=False raises. -/
def hasNonFinite : Json → Bool
  | .nan => true
  | .inf => true
  | .ninf => true
  | .arr xs => hasNonFiniteList xs
  | .obj kvs => hasNonFiniteObj kvs
  | _ => false

/-- Element-wise non-finite test for arrays. -/
def hasNonFiniteList : List Json → Bool
  | [] => false
  | x :: xs => hasNonFinite x || hasNonFiniteList xs

/-- Value-wise non-finite test for objects. -/
def hasNonFiniteObj : List (String × Json) → Bool
  | [] => false
  | kv :: kvs => hasNonFinite kv.2 || hasNonFiniteObj kvs

end

mutual

/-- Recursively sorts every object of a document by key, which is the order
json.dump with sort_keys=True traverses object members in.  Array order and
all values are preserved. -/
def canon : Json → Json
  | .arr xs => .arr (canonList xs)
  | .obj kvs => .obj (List.insertionSort (fun a b => a.1 ≤ b.1) (canonObj kvs))
  | j => j

/-- Pointwise canon over array elements. -/
def canonList : List Json → List Json
  | [] => []
  | x :: xs => canon x :: canonList xs

/-- Pointwise canon over object values, keys unchanged. -/
def canonObj : List (String × Json) → List (String × Json)
  | [] => []
  | kv :: kvs => (kv.1, canon kv.2) :: canonObj kvs

end

mutual

/-- Wellformedness invariant Python dictionaries provide: every object in
the document has unique member keys, at every depth. -/
def objKeysNodup : Json → Bool
  | .arr xs => objKeysNodupList xs
  | .obj kvs => decide ((kvs.map Prod.fst).Nodup) && objKeysNodupObj kvs
  | _ => true

/-- Element-wise unique-keys test for arrays. -/
def objKeysNodupList : List Json → Bool
  | [] => true
  | x :: xs => objKeysNodup x && objKeysNodupList xs

/-- Value-wise unique-keys test for object members. -/
def objKeysNodupObj : List (String × Json) → Bool
  | [] => true
  | kv :: kvs => objKeysNodup kv.2 && objKeysNodupObj kvs

end

mutual

/-- Two documents describe the same logical document up to key insertion
order: they differ only in the order of object members, at any depth.  An
object is related to another by first permuting its member list and then
relating the members pointwise, equal keys and equivalent values; arrays
relate element-wise in order. -/
inductive KeyOrderEquiv : Json → Json → Prop where
  | refl (j : Json) : KeyOrderEquiv j j
  | arr : ∀ {xs ys : List Json}, KeyOrderEquivList xs ys →
      KeyOrderEquiv (.arr xs) (.arr ys)
  | obj : ∀ {kvs₁ mid kvs₂ : List (String × Json)}, kvs₁.Perm mid →
      KeyOrderEquivObj mid kvs₂ → KeyOrderEquiv (.obj kvs₁) (.obj kvs₂)

/-- Element-wise equivalence of array members. -/
inductive KeyOrderEquivList : List Json → List Json → Prop where
  | nil : KeyOrderEquivList [] []
  | cons : ∀ {x y : Json} {xs ys : List Json}, KeyOrderEquiv x y →
      KeyOrderEquivList xs ys → KeyOrderEquivList (x :: xs) (y :: ys)

/-- Pointwise equivalence of object members: equal keys, equivalent values. -/
inductive KeyOrderEquivObj :
    List (String × Json) → List (String × Json) → Prop where
  | nil : KeyOrderEquivObj [] []
  | cons : ∀ {k : String} {v₁ v₂ : Json} {l₁ l₂ : List (String × Json)},
      KeyOrderEquiv v₁ v₂ → KeyOrderEquivObj l₁ l₂ →
      KeyOrderEquivObj ((k, v₁) :: l₁) ((k, v₂) :: l₂)

end

/-- Gives the lowercase hex digit for a value below 16. -/
def hexDigit (n : Nat) : Char :=
  if n < 10 then Char.ofNat (48 + n) else Char.ofNat (87 + n)

/-- Renders a code point as four lowercase hex digits, as in a JSON escape. -/
def hex4 (n : Nat) : String :=
  String.mk [hexDigit (n / 4096 % 16), hexDigit (n / 256 % 16),
             hexDigit (n / 16 % 16), hexDigit (n % 16)]

/-- Escapes one character the way json.dump with ensure_ascii=True does:
quote, backslash and the short control escapes get a backslash form, other
control characters and all non-ASCII characters become unicode escapes
(surrogate pairs beyond the basic plane), the rest stand for themselves. -/
def escapeChar (c : Char) : String :=
  if c = '"' then "\\\""
  else if c = '\\' then "\\\\"
  else if c = '\n' then "\\n"
  else if c = '\t' then "\\t"
  else if c = '\r' then "\\r"
  else if c = Char.ofNat 8 then "\\b"
  else if c = Char.ofNat 12 then "\\f"
  else if c.toNat < 32 ∨ 126 < c.toNat then
    if c.toNat < 65536 then "\\u" ++ hex4 c.toNat
    else
      "\\u" ++ hex4 (55296 + (c.toNat - 65536) / 1024) ++
      "\\u" ++ hex4 (56320 + (c.toNat - 65536) % 1024)
  else String.singleton c

/-- Renders a JSON string literal with its quotes. -/
def quoteJson (s : String) : String :=
  "\"" ++ String.join (s.toList.map escapeChar) ++ "\""

/-- Renders an atom (everything except arrays and objects).  Integers render
as their decimal form, the float model renders deterministically from its
mantissa and exponent, non-finite values render the way json.dump writes them
when they are allowed at all. -/
def renderAtom : Json → String
  | .null => "null"
  | .bool true => "true"
  | .bool false => "false"
  | .int n => toString n
  | .float m e => toString m ++ "e" ++ toString e
  | .nan => "NaN"
  | .inf => "Infinity"
  | .ninf => "-Infinity"
  | .str s => quoteJson s
  | .arr _ => ""
  | .obj _ => ""

/-- Gives the indentation for a nesting depth with indent=4. -/
def pad (depth : Nat) : String :=
  String.mk (List.replicate (4 * depth) ' ')

mutual

/-- Renders a document at a nesting depth the way json.dump with indent=4
lays it out: each container member on its own line, indented one level deeper,
members separated by a comma at the end of the line, the closing bracket back
at the container depth, and empty containers rendered inline.  Object members
are rendered in storage order, so this is applied after canon, together
modelling the sorted traversal of json.dump with sort_keys=True. -/
def render (d : Nat) : Json → String
  | .arr [] => "[]"
  | .arr (x :: xs) =>
      "[\n" ++ renderList (d + 1) (x :: xs) ++ "\n" ++ pad d ++ "]"
  | .obj [] => String.mk [lbrace, rbrace]
  | .obj (kv :: kvs) =>
      String.singleton lbrace ++ "\n" ++ renderObj (d + 1) (kv :: kvs) ++ "\n" ++
      pad d ++ String.singleton rbrace
  | j => renderAtom j

/-- Renders array members, one per line, comma separated. -/
def renderList (d : Nat) : List Json → String
  | [] => ""
  | [x] => pad d ++ render d x
  | x :: y :: xs => pad d ++ render d x ++ ",\n" ++ renderList d (y :: xs)

/-- Renders object members, one per line, comma separated, each as the quoted
key, a colon and a space, then the value. -/
def renderObj (d : Nat) : List (String × Json) → String
  | [] => ""
  | [kv] => pad d ++ quoteJson kv.1 ++ ": " ++ render d kv.2
  | kv :: kv2 :: kvs =>
      pad d ++ quoteJson kv.1 ++ ": " ++ render d kv.2 ++ ",\n" ++
      renderObj d (kv2 :: kvs)

end

mutual

/-- Renders a document the way json.dumps renders it with default options:
no indentation, members separated by comma and space, keys in storage order,
non-finite floats written out (allow_nan defaults to True). -/
def renderCompact : Json → String
  | .arr xs => "[" ++ renderCompactList xs ++ "]"
  | .obj kvs =>
      String.singleton lbrace ++ renderCompactObj kvs ++ String.singleton rbrace
  | j => renderAtom j

/-- Compact rendering of array members. -/
def renderCompactList : List Json → String
  | [] => ""
  | [x] => renderCompact x
  | x :: y :: xs => renderCompact x ++ ", " ++ renderCompactList (y :: xs)

/-- Compact rendering of object members. -/
def renderCompactObj : List (String × Json) → String
  | [] => ""
  | [kv] => quoteJson kv.1 ++ ": " ++ renderCompact kv.2
  | kv :: kv2 :: kvs =>
      quoteJson kv.1 ++ ": " ++ renderCompact kv.2 ++ ", " ++
      renderCompactObj (kv2 :: kvs)

end

/-- Models json.dumps(value) with default options, as save applies it to the
metadata value of the manifest; a missing value is Python None and dumps to
null. -/
def jsonDumpsDefault : Option Json → String
  | none => "null"
  | some j => renderCompact j

/-- Drops leading JSON whitespace. -/
def skipWs : List Char → List Char
  | c :: cs => if c = ' ' ∨ c = '\n' ∨ c = '\t' ∨ c = '\r' then skipWs cs else c :: cs
  | [] => []

/-- Reads a run of decimal digits. -/
def takeDigits : List Char → (List Char × List Char)
  | c :: cs =>
      if c.isDigit then
        let (ds, rest) := takeDigits cs
        (c :: ds, rest)
      else ([], c :: cs)
  | [] => ([], [])

/-- Converts a digit run to its value. -/
def digitsToNat (ds : List Char) : Nat :=
  ds.foldl (fun acc c => 10 * acc + (c.toNat - 48)) 0

/-- Reads the body of a string literal up to the closing quote.  The model
covers literals without escape sequences and fails on a backslash, a
restriction of the embedding, not of the source. -/
def parseStrBody : List Char → Except Err (String × List Char)
  | c :: cs =>
      if c = '"' then .ok ("", cs)
      else if c = '\\' then .error .jsonParse
      else
        match parseStrBody cs with
        | .ok (s, rest) => .ok (String.singleton c ++ s, rest)
        | .error e => .error e
  | [] => .error .jsonParse

mutual

/-- Fuel-indexed recursive-descent parser modelling json.load restricted to
null, booleans, integers, escape-free strings, arrays and objects; floats and
string escapes are outside the model and fail.  Every recursive call consumes
one unit of fuel, so the recursion is structural on the fuel and the caller
supplies enough fuel for the whole input. -/
def parseVal : Nat → List Char → Except Err (Json × List Char)
  | 0, _ => .error .jsonParse
  | fuel + 1, cs =>
      match skipWs cs with
      | 'n' :: 'u' :: 'l' :: 'l' :: rest => .ok (.null, rest)
      | 't' :: 'r' :: 'u' :: 'e' :: rest => .ok (.bool true, rest)
      | 'f' :: 'a' :: 'l' :: 's' :: 'e' :: rest => .ok (.bool false, rest)
      | c :: rest => parseValHead fuel c rest
      | [] => .error .jsonParse

/-- Dispatches on the first significant character for the non-keyword forms. -/
def parseValHead : Nat → Char → List Char → Except Err (Json × List Char)
  | 0, _, _ => .error .jsonParse
  | fuel + 1, c, rest =>
      if c = '"' then
        match parseStrBody rest with
        | .ok (s, rest2) => .ok (.str s, rest2)
        | .error e => .error e
      else if c = '[' then
        match skipWs rest with
        | ']' :: rest2 => .ok (.arr [], rest2)
        | other =>
            match parseItems fuel other with
            | .ok (xs, rest2) => .ok (.arr xs, rest2)
            | .error e => .error e
      else if c = lbrace then
        match skipWs rest with
        | c2 :: rest2 =>
            if c2 = rbrace then .ok (.obj [], rest2)
            else
              match parseMembers fuel (c2 :: rest2) with
              | .ok (kvs, rest3) => .ok (.obj kvs, rest3)
              | .error e => .error e
        | [] => .error .jsonParse
      else if c = '-' then
        match takeDigits rest with
        | ([], _) => .error .jsonParse
        | (ds, rest2) =>
            match rest2 with
            | c2 :: _ =>
                if c2 = '.' ∨ c2 = 'e' ∨ c2 = 'E' then .error .jsonParse
                else .ok (.int (-(digitsToNat ds : Int)), rest2)
            | [] => .ok (.int (-(digitsToNat ds : Int)), [])
      else if c.isDigit then
        match takeDigits (c :: rest) with
        | (ds, rest2) =>
            match rest2 with
            | c2 :: _ =>
                if c2 = '.' ∨ c2 = 'e' ∨ c2 = 'E' then .error .jsonParse
                else .ok (.int (digitsToNat ds : Int), rest2)
            | [] => .ok (.int (digitsToNat ds : Int), [])
      else .error .jsonParse

/-- Parses the comma-separated members of a non-empty array, consuming the
closing bracket. -/
def parseItems : Nat → List Char → Except Err (List Json × List Char)
  | 0, _ => .error .jsonParse
  | fuel + 1, cs =>
      match parseVal fuel cs with
      | .error e => .error e
      | .ok (x, rest) =>
          match skipWs rest with
          | ',' :: rest2 =>
              match parseItems fuel rest2 with
              | .ok (xs, rest3) => .ok (x :: xs, rest3)
              | .error e => .error e
          | ']' :: rest2 => .ok ([x], rest2)
          | _ => .error .jsonParse

/-- Parses the comma-separated members of a non-empty object, consuming the
closing brace. -/
def parseMembers : Nat → List Char → Except Err (List (String × Json) × List Char)
  | 0, _ => .error .jsonParse
  | fuel + 1, cs =>
      match skipWs cs with
      | c :: rest =>
          if c = '"' then
            match parseStrBody rest with
            | .error e => .error e
            | .ok (k, rest2) =>
                match skipWs rest2 with
                | ':' :: rest3 =>
                    match parseVal fuel rest3 with
                    | .error e => .error e
                    | .ok (v, rest4) =>
                        match skipWs rest4 with
                        | ',' :: rest5 =>
                            match parseMembers fuel rest5 with
                            | .ok (kvs, rest6) => .ok ((k, v) :: kvs, rest6)
                            | .error e => .error e
                        | c2 :: rest5 =>
                            if c2 = rbrace then .ok ([(k, v)], rest5)
                            else .error .jsonParse
                        | [] => .error .jsonParse
                | _ => .error .jsonParse
          else .error .jsonParse
      | [] => .error .jsonParse

end

/-- Models json.load over a whole byte string: parse one document and accept
only trailing whitespace. -/
def jsonLoad (s : String) : Except Err Json :=
  match parseVal (4 * s.toList.length + 8) s.toList with
  | .error e => .error e
  | .ok (j, rest) => if (skipWs rest).isEmpty then .ok j else .error .jsonParse

/-- Models ArtifactMetadata.dump, which is json.dump of the metadata value
with sort_keys=True, allow_nan=False and indent=4: it rejects documents with
non-finite floats and otherwise produces the canonical text, rendering with
every object sorted by key (canon composed with render is the sorted traversal
json.dump performs). -/
def ArtifactMetadata.dump (md : Json) : Except Err String :=
  if hasNonFinite md then .error .serialization
  else .ok (render 0 (canon md))

/-- Models ArtifactMetadata.digest: the source dumps the canonical text to a
temporary file and runs hash_file over it, so the digest is the fingerprint
of the dumped bytes. -/
def ArtifactMetadata.digest (md : Json) : Except Err String :=
  match ArtifactMetadata.dump md with
  | .error e => .error e
  | .ok s => .ok (hashBytes s)

/-- Models ArtifactMetadata.from_file: read the file and json.load it. -/
def ArtifactMetadata.from_file (fs : Fs) (path : String) : Except Err Json :=
  match fs.files.lookup path with
  | none => .error .ioError
  | some content => jsonLoad content

/-- Reserved logical path under which metadata may appear as a file. -/
def ARTIFACT_METADATA_FILENAME : String := "artifact-metadata.json"

/-- User path inputs as user_paths_to_path_specs distinguishes them: a flat
list of file paths, an insertion-ordered mapping from artifact path to local
path, or a single file or directory path. -/
inductive UserPaths where
  | list (ps : List String)
  | dict (m : List (String × String))
  | single (p : String)

/-- Models the list branch loop of user_paths_to_path_specs: each element
contributes its basename, and a basename already present raises the duplicate
name error.  Since the key is absent when assigned, the dict assignment is an
append. -/
def listPathsLoop : List String → List (String × String) →
    Except Err (List (String × String))
  | [], acc => .ok acc
  | p :: rest, acc =>
      if (acc.lookup (basename p)).isSome then .error .duplicateName
      else listPathsLoop rest (acc ++ [(basename p, p)])

/-- Models the branch dispatch of user_paths_to_path_specs before the final
emptiness check: list inputs go through the basename loop, mappings pass
through unchanged, a single path is walked when it is a directory, keyed by
its basename when it is a file, and rejected otherwise. -/
def resolveRaw (fs : Fs) : UserPaths → Except Err (List (String × String))
  | .list ps => listPathsLoop ps []
  | .dict m => .ok m
  | .single p =>
      if isDir fs p then .ok (walk fs p)
      else if isFile fs p then .ok [(basename p, p)]
      else .error .invalidInput

/-- Models user_paths_to_path_specs: resolve the input, then reject an empty
path spec whichever branch produced it. -/
def user_paths_to_path_specs (fs : Fs) (paths : UserPaths) :
    Except Err (List (String × String)) :=
  match resolveRaw fs paths with
  | .error e => .error e
  | .ok specs => if specs.isEmpty then .error .invalidInput else .ok specs

/-- One manifest entry: artifact path, content hash, and the local source
path, which is none only for the synthetic metadata entry. -/
structure LocalArtifactEntry where
  path : String
  hash : String
  local_path : Option String
  deriving DecidableEq

/-- Modelled from the spec: the digest computed by ArtifactManifestV1 of
wandb.apis.artifact_manifest, a module this repository imports at line 14 and
uses at line 147 of src/wandb/apis/artifacts.py but whose source is not under
src/.  Spec section 4.4 step 4 describes it as a deterministic fold over the
entries sorted by logical path, concatenating logical path and content hash
null separated in sorted order and hashing the concatenation. -/
def ArtifactManifestV1.digest (entries : List LocalArtifactEntry) : String :=
  hashBytes (String.join
    ((List.insertionSort (fun a b => a.path ≤ b.path) entries).map
      (fun e => e.path ++ "\x00" ++ e.hash ++ "\x00")))

/-- State of LocalArtifactManifestV1 after construction: the path specs left
after the metadata pop, the metadata value when present, the entry list, and
the manifest digest. -/
structure LocalArtifactManifestV1 where
  path_specs : List (String × String)
  metadata : Option Json
  local_entries : List LocalArtifactEntry
  digest : String

/-- Builds the synthetic metadata entry list: one entry under the reserved
name with the metadata digest and no local path when metadata is present,
nothing otherwise. -/
def mdEntryList : Option Json → Except Err (List LocalArtifactEntry)
  | none => .ok []
  | some md =>
      match ArtifactMetadata.digest md with
      | .error e => .error e
      | .ok dg => .ok [⟨ARTIFACT_METADATA_FILENAME, dg, none⟩]

/-- Models the entry loop of LocalArtifactManifestV1: one entry per path spec
pair, hashing the local file and recording its absolute path; the first
unreadable file aborts the construction. -/
def hashEntries (fs : Fs) : List (String × String) →
    Except Err (List LocalArtifactEntry)
  | [] => .ok []
  | (ap, lp) :: rest =>
      match hash_file fs lp with
      | .error e => .error e
      | .ok h =>
          match hashEntries fs rest with
          | .error e => .error e
          | .ok es => .ok (⟨ap, h, some (abspath fs lp)⟩ :: es)

/-- The entry hashEntries produces for one path spec pair whose file is
present: artifact path, fingerprint of the file content, absolute local
path. -/
def entryOf (fs : Fs) (p : String × String) : LocalArtifactEntry :=
  ⟨p.1, hashBytes ((fs.files.lookup p.2).getD ""), some (abspath fs p.2)⟩

/-- Assembles a manifest from resolved path specs and an optional metadata
document: the synthetic metadata entry first, then one hashed entry per spec
pair, and the digest over the whole entry list. -/
def buildFromSpecs (fs : Fs) (specs : List (String × String)) (md : Option Json) :
    Except Err LocalArtifactManifestV1 :=
  match mdEntryList md with
  | .error e => .error e
  | .ok mdEs =>
      match hashEntries fs specs with
      | .error e => .error e
      | .ok fileEs =>
          .ok ⟨specs, md, mdEs ++ fileEs,
               ArtifactManifestV1.digest (mdEs ++ fileEs)⟩

/-- Models LocalArtifactManifestV1.__init__: resolve the user paths, then
apply the metadata rules in source order.  When the reserved path appears in
the path specs, an explicit metadata argument is an error; otherwise the
reserved path is popped out of the specs and loaded as metadata from its
file.  The remaining specs are hashed into entries. -/
def mkLocalArtifactManifestV1 (fs : Fs) (paths : UserPaths)
    (metadata : Option Json) : Except Err LocalArtifactManifestV1 :=
  match user_paths_to_path_specs fs paths with
  | .error e => .error e
  | .ok specs0 =>
      match specs0.lookup ARTIFACT_METADATA_FILENAME, metadata with
      | some _, some _ => .error .ambiguousMetadata
      | some lp, none =>
          match ArtifactMetadata.from_file fs lp with
          | .error e => .error e
          | .ok doc =>
              buildFromSpecs fs
                (specs0.eraseP (fun p => p.1 == ARTIFACT_METADATA_FILENAME))
                (some doc)
      | none, some m => buildFromSpecs fs specs0 (some m)
      | none, none => buildFromSpecs fs specs0 none

/-- Snapshot of the server-side artifact version record as returned by
create_artifact_version: an id and a lifecycle state.  The source reads it
both by subscript in save and by attribute in wait; both are modelled as
field access. -/
structure ServerArtifact where
  id : String
  state : String
  deriving DecidableEq

/-- Deterministic response oracle for the two registry calls save issues.
The first gives the artifact id for create_artifact on a name, the second the
version record for create_artifact_version on artifact id, digest, dumped
metadata and the user-created flag. -/
structure Api where
  createArtifactResult : String → String
  createVersionResult : String → String → String → Bool → ServerArtifact

/-- Source argument of a file_changed call: a real local path as recorded in
the entry, or the content of the temporary file that save dumps the metadata
into before pushing it. -/
inductive FileSource where
  | localFile (p : Option String)
  | tempDump (contents : String)
  deriving DecidableEq

/-- Calls save issues against the file pusher, in order. -/
inductive PusherCall where
  | file_changed (save_name : String) (source : FileSource) (artifact_id : String)
  | commit_artifact (artifact_id : String)
  deriving DecidableEq

/-- Remote calls the wait loop could issue; the polling primitive of spec
section 6 is the only candidate.  The trace wait returns records every such
call it makes. -/
inductive ApiCall where
  | poll (version_id : String)
  deriving DecidableEq

/-- State of a LocalArtifact coordinator: its manifest, the user-created
flag, and the stored server artifact snapshot, none before any save call.
The api and the file pusher are passed at the call sites in this model and
their effects are returned as explicit traces. -/
structure LocalArtifact where
  local_manifest : LocalArtifactManifestV1
  is_user_created : Bool
  server_artifact : Option ServerArtifact

/-- The version record the creation calls of save produce for a given api,
coordinator and name: create_artifact on the name, then
create_artifact_version on the resulting id, the manifest digest, the
default-dumped metadata and the user-created flag. -/
def saveVersion (api : Api) (a : LocalArtifact) (nm : String) : ServerArtifact :=
  api.createVersionResult (api.createArtifactResult nm)
    a.local_manifest.digest
    (jsonDumpsDefault a.local_manifest.metadata)
    a.is_user_created

/-- Models the entry loop of save: each entry becomes one file_changed call
tagged with the version id; the metadata entry is first dumped to a temporary
file (raising when the dump raises, or when no metadata object exists) and
pushed from there.  Returns the outcome together with the calls made before
any raise. -/
def pushEntries (lm : LocalArtifactManifestV1) (vid : String) :
    List LocalArtifactEntry → (Except Err Unit × List PusherCall)
  | [] => (.ok (), [])
  | e :: rest =>
      if e.path = ARTIFACT_METADATA_FILENAME then
        match lm.metadata with
        | none => (.error .typeError, [])
        | some md =>
            match ArtifactMetadata.dump md with
            | .error er => (.error er, [])
            | .ok bytes =>
                let r := pushEntries lm vid rest
                (r.1, .file_changed e.path (.tempDump bytes) vid :: r.2)
      else
        let r := pushEntries lm vid rest
        (r.1, .file_changed e.path (.localFile e.local_path) vid :: r.2)

/-- Models LocalArtifact.save: create the artifact and the version, store the
snapshot (before any state check), return it at once on COMMITTED, raise on
any state other than PENDING, and otherwise push every entry and issue the
final commit_artifact.  Returns the outcome, the updated coordinator, and the
trace of pusher calls. -/
def LocalArtifact.save (api : Api) (a : LocalArtifact) (nm : String) :
    Except Err ServerArtifact × LocalArtifact × List PusherCall :=
  let sa := saveVersion api a nm
  let a2 := { a with server_artifact := some sa }
  if sa.state = "COMMITTED" then (.ok sa, a2, [])
  else if sa.state ≠ "PENDING" then (.error .unexpectedState, a2, [])
  else
    match pushEntries a.local_manifest sa.id a.local_manifest.local_entries with
    | (.ok _, calls) => (.ok sa, a2, calls ++ [.commit_artifact sa.id])
    | (.error er, calls) => (.error er, a2, calls)

/-- One pass of the wait loop condition over a bounded number of sleep
iterations: the loop exits as soon as the stored snapshot state reads READY
and otherwise sleeps and re-checks; none means the fuel ran out with the loop
still running.  The snapshot is never refreshed between iterations, so the
outcome is decided by the stored state alone. -/
def waitLoop (sa : ServerArtifact) : Nat → Option Unit
  | 0 => none
  | n + 1 => if sa.state = "READY" then some () else waitLoop sa n

/-- Models LocalArtifact.wait observed for a bounded number of loop
iterations: raising when no snapshot is stored, and otherwise running the
sleep loop.  The second component is the trace of remote calls the loop body
issues, which is empty because the body only sleeps. -/
def LocalArtifact.wait (a : LocalArtifact) (fuel : Nat) :
    Except Err (Option Unit × List ApiCall) :=
  match a.server_artifact with
  | none => .error .notSaved
  | some sa => .ok (waitLoop sa fuel, [])

/-- Models LocalArtifact.__init__: build the manifest and start with no
server artifact snapshot. -/
def mkLocalArtifact (fs : Fs) (paths : UserPaths) (metadata : Option Json)
    (is_user_created : Bool) : Except Err LocalArtifact :=
  match mkLocalArtifactManifestV1 fs paths metadata with
  | .error e => .error e
  | .ok lm => .ok ⟨lm, is_user_created, none⟩

/-- Minimal model of Python runtime values, enough to distinguish calling a
callable from calling anything else. -/
inductive PyVal where
  | vstr (s : String)
  | vmethod (returns : String)
  deriving DecidableEq

/-- Models a Python zero-argument call expression: a bound method runs and
produces its result, applying a non-callable raises a TypeError. -/
def PyVal.call : PyVal → Except Err PyVal
  | .vmethod r => .ok (.vstr r)
  | .vstr _ => .error .typeError

/-- The digest property of LocalArtifactManifestV1 is a property returning
the digest string, so the attribute reads as a plain string value. -/
def LocalArtifactManifestV1.digestAttr (lm : LocalArtifactManifestV1) : PyVal :=
  .vstr lm.digest

/-- State of LocalArtifactRead: the artifact directory and the manifest built
from the given path. -/
structure LocalArtifactRead where
  artifact_dir : String
  local_manifest : LocalArtifactManifestV1

/-- Models LocalArtifactRead.__init__: a directory is taken as the artifact
directory, a file contributes its directory, anything else raises; the
manifest is then built from the path as a single-path input with no metadata
argument. -/
def mkLocalArtifactRead (fs : Fs) (_nm path : String) :
    Except Err LocalArtifactRead :=
  if isDir fs path then
    match mkLocalArtifactManifestV1 fs (.single path) none with
    | .error e => .error e
    | .ok lm => .ok ⟨path, lm⟩
  else if isFile fs path then
    match mkLocalArtifactManifestV1 fs (.single path) none with
    | .error e => .error e
    | .ok lm => .ok ⟨dirname path, lm⟩
  else .error .invalidInput

/-- Models the digest property of LocalArtifactRead, whose body calls the
digest attribute of the manifest as if it were a method. -/
def LocalArtifactRead.digest (r : LocalArtifactRead) : Except Err PyVal :=
  PyVal.call (r.local_manifest.digestAttr)

/-- Example filesystem used by concrete witnesses: two one-byte files with
the shared basename x.txt in different directories, and a JSON file holding
the document null. -/
def exFs : Fs :=
  ⟨"/cwd", [("/a/x.txt", "1"), ("/b/x.txt", "2"), ("/m.json", "null")]⟩

/-- Example api oracle returning fixed ids and a fixed creation state. -/
def exApi (st : String) : Api :=
  ⟨fun _ => "artifact-id", fun _ _ _ _ => ⟨"version-id", st⟩⟩

/-- Entry list of the example manifest over exFs. -/
def exEntries : List LocalArtifactEntry :=
  [⟨"a.txt", hashBytes "1", some "/a/x.txt"⟩]

/-- Example manifest: the single file of exFs under logical path a.txt. -/
def exManifest : LocalArtifactManifestV1 :=
  ⟨[("a.txt", "/a/x.txt")], none, exEntries, ArtifactManifestV1.digest exEntries⟩

/-- Example coordinator before any save call. -/
def exArtifact : LocalArtifact := ⟨exManifest, false, none⟩

/-- Entry list of the example manifest that carries embedded metadata. -/
def exMetaEntries : List LocalArtifactEntry :=
  [⟨ARTIFACT_METADATA_FILENAME, hashBytes "null", none⟩,
   ⟨"a.txt", hashBytes "1", some "/a/x.txt"⟩]

/-- Example manifest built from a path spec containing the reserved metadata
path, after the pop: the metadata document is null, loaded from /m.json. -/
def exMetaManifest : LocalArtifactManifestV1 :=
  ⟨[("a.txt", "/a/x.txt")], some Json.null, exMetaEntries,
   ArtifactManifestV1.digest exMetaEntries⟩

/-- Entry list of the manifest LocalArtifactRead builds over /a/x.txt. -/
def exReadEntries : List LocalArtifactEntry :=
  [⟨"x.txt", hashBytes "1", some "/a/x.txt"⟩]

/-- Manifest the single-file branch builds from /a/x.txt: the basename is the
logical path. -/
def exReadManifest : LocalArtifactManifestV1 :=
  ⟨[("x.txt", "/a/x.txt")], none, exReadEntries,
   ArtifactManifestV1.digest exReadEntries⟩

/-- Tests whether a dynamic-call outcome is a TypeError. -/
def isTypeErr : Except Err PyVal → Bool
  | .error .typeError => true
  | _ => false

/-- Unfolding helper: erasing at a matching head drops the head. -/
theorem eraseP_cons_pos {α : Type} (pr : α → Bool) (a : α) (l : List α)
    (hb : pr a = true) : (a :: l).eraseP pr = l := by
  simp only [List.eraseP_cons, hb]
  simp

/-- Unfolding helper: erasing at a non-matching head keeps the head. -/
theorem eraseP_cons_neg {α : Type} (pr : α → Bool) (a : α) (l : List α)
    (hb : pr a = false) : (a :: l).eraseP pr = a :: l.eraseP pr := by
  simp only [List.eraseP_cons, hb]
  simp

/-- Association lookup distributes over append, first hit wins. -/
theorem lookup_append {β : Type} (l₁ l₂ : List (String × β)) (k : String) :
    (l₁ ++ l₂).lookup k = ((l₁.lookup k).or (l₂.lookup k)) := by
  induction l₁ with
  | nil => simp [List.lookup]
  | cons p l ih =>
      by_cases h : k = p.1
      · have hb : (k == p.1) = true := by simp [h]
        simp only [List.cons_append, List.lookup, hb]
        rfl
      · have hb : (k == p.1) = false := by simp [h]
        simp only [List.cons_append, List.lookup, hb]
        exact ih

/-- Association lookup misses exactly when no pair carries the key. -/
theorem lookup_eq_none_iff {β : Type} (l : List (String × β)) (k : String) :
    l.lookup k = none ↔ ∀ p ∈ l, p.1 ≠ k := by
  induction l with
  | nil => simp [List.lookup]
  | cons p l ih =>
      by_cases h : k = p.1
      · have hb : (k == p.1) = true := by simp [h]
        simp only [List.lookup, hb]
        constructor
        · intro hcon; cases hcon
        · intro hall; exact absurd h.symm (hall p (List.mem_cons_self _ _))
      · have hb : (k == p.1) = false := by simp [h]
        simp only [List.lookup, hb]
        rw [ih]
        constructor
        · intro hall q hq
          rcases List.mem_cons.mp hq with rfl | hq2
          · exact fun hcon => h hcon.symm
          · exact hall q hq2
        · intro hall q hq
          exact hall q (List.mem_cons_of_mem _ hq)

/-- Association lookup is invariant under permutation when keys are unique. -/
theorem lookup_perm {β : Type} {l₁ l₂ : List (String × β)} (hp : l₁.Perm l₂)
    (k : String) : (l₁.map Prod.fst).Nodup → l₁.lookup k = l₂.lookup k := by
  induction hp with
  | nil => intro _; rfl
  | cons x h ih =>
      intro hnd
      by_cases hx : k = x.1
      · have hb : (k == x.1) = true := by simp [hx]
        simp only [List.lookup, hb]
      · have hb : (k == x.1) = false := by simp [hx]
        simp only [List.lookup, hb]
        exact ih (by simpa using hnd.of_cons)
  | swap x y l =>
      intro hnd
      have hyx : y.1 ∉ x.1 :: l.map Prod.fst :=
        (List.nodup_cons.mp (by simpa using hnd)).1
      have hne : y.1 ≠ x.1 := fun hcon => hyx (hcon ▸ List.mem_cons_self _ _)
      by_cases h₁ : k = y.1
      · have hb₁ : (k == y.1) = true := by simp [h₁]
        have hb₂ : (k == x.1) = false := by
          simp only [beq_eq_false_iff_ne, ne_eq]
          exact fun hcon => hne (h₁ ▸ hcon)
        simp only [List.lookup, hb₁, hb₂]
      · by_cases h₂ : k = x.1
        · have hb₁ : (k == y.1) = false := by simp [h₁]
          have hb₂ : (k == x.1) = true := by simp [h₂]
          simp only [List.lookup, hb₁, hb₂]
        · have hb₁ : (k == y.1) = false := by simp [h₁]
          have hb₂ : (k == x.1) = false := by simp [h₂]
          simp only [List.lookup, hb₁, hb₂]
  | trans h₁ _ ih₁ ih₂ =>
      intro hnd
      exact (ih₁ hnd).trans (ih₂ (((h₁.map Prod.fst).nodup_iff).mp hnd))

/-- Removing a key keeps the erased lists of two permuted unique-key maps
permuted. -/
theorem eraseP_perm_keyed {β : Type} {l₁ l₂ : List (String × β)} (hp : l₁.Perm l₂)
    (k : String) : (l₁.map Prod.fst).Nodup →
    (l₁.eraseP (fun q => q.1 == k)).Perm (l₂.eraseP (fun q => q.1 == k)) := by
  induction hp with
  | nil => intro _; exact List.Perm.refl _
  | cons x h ih =>
      intro hnd
      by_cases hx : x.1 = k
      · have hb : (x.1 == k) = true := by simp [hx]
        rw [eraseP_cons_pos (fun q => q.1 == k) x _ hb, eraseP_cons_pos (fun q => q.1 == k) x _ hb]
        exact h
      · have hb : (x.1 == k) = false := by simp [hx]
        rw [eraseP_cons_neg (fun q => q.1 == k) x _ hb, eraseP_cons_neg (fun q => q.1 == k) x _ hb]
        exact (ih (by simpa using hnd.of_cons)).cons x
  | swap x y l =>
      intro hnd
      have hyx : y.1 ∉ x.1 :: l.map Prod.fst :=
        (List.nodup_cons.mp (by simpa using hnd)).1
      have hne : y.1 ≠ x.1 := fun hcon => hyx (hcon ▸ List.mem_cons_self _ _)
      by_cases h₁ : y.1 = k
      · have h₂ : ¬ x.1 = k := fun hcon => hne (h₁.trans hcon.symm)
        have hb₁ : (y.1 == k) = true := by simp [h₁]
        have hb₂ : (x.1 == k) = false := by simp [h₂]
        rw [eraseP_cons_pos (fun q => q.1 == k) y _ hb₁, eraseP_cons_neg (fun q => q.1 == k) x _ hb₂,
          eraseP_cons_pos (fun q => q.1 == k) y _ hb₁]
      · by_cases h₂ : x.1 = k
        · have hb₁ : (y.1 == k) = false := by simp [h₁]
          have hb₂ : (x.1 == k) = true := by simp [h₂]
          rw [eraseP_cons_neg (fun q => q.1 == k) y _ hb₁, eraseP_cons_pos (fun q => q.1 == k) x _ hb₂,
            eraseP_cons_pos (fun q => q.1 == k) x _ hb₂]
        · have hb₁ : (y.1 == k) = false := by simp [h₁]
          have hb₂ : (x.1 == k) = false := by simp [h₂]
          rw [eraseP_cons_neg (fun q => q.1 == k) y _ hb₁, eraseP_cons_neg (fun q => q.1 == k) x _ hb₂,
            eraseP_cons_neg (fun q => q.1 == k) x _ hb₂, eraseP_cons_neg (fun q => q.1 == k) y _ hb₁]
          exact List.Perm.swap x y _
  | trans h₁ _ ih₁ ih₂ =>
      intro hnd
      exact (ih₁ hnd).trans (ih₂ (((h₁.map Prod.fst).nodup_iff).mp hnd))

/-- After erasing a key from a unique-key map, no member carries that key. -/
theorem eraseP_keys_ne {β : Type} {l : List (String × β)} (k : String) :
    (l.map Prod.fst).Nodup →
    ∀ p ∈ l.eraseP (fun q => q.1 == k), p.1 ≠ k := by
  induction l with
  | nil => intro _ p hmem; simp at hmem
  | cons a l ih =>
      intro hnd p hmem
      by_cases ha : a.1 = k
      · rw [eraseP_cons_pos (fun q => q.1 == k) a _ (by simpa using ha)] at hmem
        have hout : a.1 ∉ l.map Prod.fst :=
          (List.nodup_cons.mp (by simpa using hnd)).1
        intro hcon
        exact hout (List.mem_map.mpr ⟨p, hmem, hcon.trans ha.symm⟩)
      · rw [eraseP_cons_neg (fun q => q.1 == k) a _ (by simpa using ha)] at hmem
        rcases List.mem_cons.mp hmem with rfl | h
        · exact ha
        · exact ih (by simpa using hnd.of_cons) p h

/-- Sorting by a string key is a function of the multiset alone when the
keys are unique: two permuted lists sort to the same list. -/
theorem insertionSort_key_congr {α : Type} (f : α → String) {l₁ l₂ : List α}
    (hp : l₁.Perm l₂) (hnd : (l₁.map f).Nodup) :
    List.insertionSort (fun a b => f a ≤ f b) l₁ =
    List.insertionSort (fun a b => f a ≤ f b) l₂ := by
  haveI : IsTotal α (fun a b => f a ≤ f b) := ⟨fun a b => le_total (f a) (f b)⟩
  haveI : IsTrans α (fun a b => f a ≤ f b) := ⟨fun _ _ _ h₁ h₂ => le_trans h₁ h₂⟩
  haveI : IsAntisymm α (fun a b => f a < f b) :=
    ⟨fun _ _ h₁ h₂ => absurd (lt_trans h₁ h₂) (lt_irrefl _)⟩
  have hs : ∀ (l : List α), (l.map f).Nodup →
      List.Sorted (fun a b => f a < f b)
        (List.insertionSort (fun a b => f a ≤ f b) l) := by
    intro l hl
    have h₁ : List.Sorted (fun a b => f a ≤ f b)
        (List.insertionSort (fun a b => f a ≤ f b) l) :=
      List.sorted_insertionSort _ l
    have hperm : (List.insertionSort (fun a b => f a ≤ f b) l).Perm l :=
      List.perm_insertionSort _ l
    have h₂ : ((List.insertionSort (fun a b => f a ≤ f b) l).map f).Nodup :=
      ((hperm.map f).nodup_iff).mpr hl
    have h₃ : (List.insertionSort (fun a b => f a ≤ f b) l).Pairwise
        (fun a b => f a ≠ f b) := List.pairwise_map.mp h₂
    exact (h₁.and h₃).imp (fun h => lt_of_le_of_ne h.1 h.2)
  have hp2 : (List.insertionSort (fun a b => f a ≤ f b) l₁).Perm
      (List.insertionSort (fun a b => f a ≤ f b) l₂) :=
    (List.perm_insertionSort _ l₁).trans (hp.trans (List.perm_insertionSort _ l₂).symm)
  exact List.eq_of_perm_of_sorted hp2 (hs l₁ hnd)
    (hs l₂ ((hp.map f).nodup_iff.mp hnd))

/-- Along a successful list resolution, every pending element has a basename
absent from the accumulator. -/
theorem listPathsLoop_ok_disjoint :
    ∀ (ps : List String) (acc r : List (String × String)),
    listPathsLoop ps acc = .ok r → ∀ q ∈ ps, acc.lookup (basename q) = none := by
  intro ps
  induction ps with
  | nil => intro acc r _ q hq; simp at hq
  | cons p rest ih =>
      intro acc r hok q hq
      by_cases hg : (acc.lookup (basename p)).isSome
      · simp [listPathsLoop, hg] at hok
      · have hok2 : listPathsLoop rest (acc ++ [(basename p, p)]) = .ok r := by
          simpa [listPathsLoop, hg] using hok
        rcases List.mem_cons.mp hq with rfl | hq2
        · exact Option.not_isSome_iff_eq_none.mp (by simpa using hg)
        · have h2 := ih _ r hok2 q hq2
          rw [lookup_append] at h2
          cases hca : acc.lookup (basename q) with
          | none => rfl
          | some v => rw [hca] at h2; simp [Option.or] at h2

/-- A successful list resolution has pairwise distinct basenames. -/
theorem listPathsLoop_ok_pairwise :
    ∀ (ps : List String) (acc r : List (String × String)),
    listPathsLoop ps acc = .ok r →
    ps.Pairwise (fun p q => basename p ≠ basename q) := by
  intro ps
  induction ps with
  | nil => intro _ _ _; exact List.Pairwise.nil
  | cons p rest ih =>
      intro acc r hok
      by_cases hg : (acc.lookup (basename p)).isSome
      · simp [listPathsLoop, hg] at hok
      · have hok2 : listPathsLoop rest (acc ++ [(basename p, p)]) = .ok r := by
          simpa [listPathsLoop, hg] using hok
        refine List.Pairwise.cons ?_ (ih _ r hok2)
        intro q hq
        have h2 := listPathsLoop_ok_disjoint rest _ r hok2 q hq
        rw [lookup_append] at h2
        cases hca : acc.lookup (basename q) with
        | some v => rw [hca] at h2; simp [Option.or] at h2
        | none =>
            rw [hca] at h2
            simp only [Option.or] at h2
            rw [lookup_eq_none_iff] at h2
            exact h2 (basename p, p) (List.mem_singleton.mpr rfl)

/-- The only error the list branch loop raises is the duplicate name error. -/
theorem listPathsLoop_error_dup :
    ∀ (ps : List String) (acc : List (String × String)) (e : Err),
    listPathsLoop ps acc = .error e → e = .duplicateName := by
  intro ps
  induction ps with
  | nil => intro acc e h; simp [listPathsLoop] at h
  | cons p rest ih =>
      intro acc e h
      by_cases hg : (acc.lookup (basename p)).isSome
      · simp [listPathsLoop, hg] at h
        exact h.symm
      · exact ih _ e (by simpa [listPathsLoop, hg] using h)

/-- C5: a list input in which two elements share a basename resolves to the
duplicate name error, while a mapping input passes through unchanged as the
path spec, so the same files supplied under distinct logical paths in a
mapping succeed. -/
theorem C5_duplicate_basenames :
    (∀ (fs : Fs) (ps : List String),
      ¬ ps.Pairwise (fun p q => basename p ≠ basename q) →
      user_paths_to_path_specs fs (.list ps) = .error .duplicateName) ∧
    (∀ (fs : Fs) (m : List (String × String)), m ≠ [] →
      user_paths_to_path_specs fs (.dict m) = .ok m) := by
  constructor
  · intro fs ps hdup
    cases hres : listPathsLoop ps [] with
    | error e =>
        have he : e = .duplicateName := listPathsLoop_error_dup ps [] e hres
        subst he
        simp [user_paths_to_path_specs, resolveRaw, hres]
    | ok r =>
        exact absurd (listPathsLoop_ok_pairwise ps [] r hres) hdup
  · intro fs m hne
    have hb : m.isEmpty = false := by
      cases m with
      | nil => exact absurd rfl hne
      | cons a l => rfl
    simp [user_paths_to_path_specs, resolveRaw, hb]

/-- C5 witness: the two x.txt files of exFs collide as a list and succeed as
a mapping. -/
theorem C5_duplicate_basenames_witness :
    user_paths_to_path_specs exFs (.list ["/a/x.txt", "/b/x.txt"]) =
      .error .duplicateName ∧
    user_paths_to_path_specs exFs
      (.dict [("f1", "/a/x.txt"), ("f2", "/b/x.txt")]) =
      .ok [("f1", "/a/x.txt"), ("f2", "/b/x.txt")] := by
  constructor
  · exact C5_duplicate_basenames.1 exFs ["/a/x.txt", "/b/x.txt"] (by decide)
  · exact C5_duplicate_basenames.2 exFs [("f1", "/a/x.txt"), ("f2", "/b/x.txt")]
      (by decide)

/-- A successful entry hashing keeps the artifact paths of the specs, in
order, and gives every produced entry a local path. -/
theorem hashEntries_ok_paths (fs : Fs) :
    ∀ (specs : List (String × String)) (es : List LocalArtifactEntry),
    hashEntries fs specs = .ok es →
    es.map LocalArtifactEntry.path = specs.map Prod.fst ∧
    ∀ e ∈ es, e.local_path.isSome := by
  intro specs
  induction specs with
  | nil =>
      intro es h
      simp [hashEntries] at h
      subst h
      simp
  | cons sp rest ih =>
      intro es h
      cases sp with
      | mk ap lpa =>
          cases hh : hash_file fs lpa with
          | error e => simp [hashEntries, hh] at h
          | ok hv =>
              cases hr : hashEntries fs rest with
              | error e => simp [hashEntries, hh, hr] at h
              | ok es2 =>
                  simp only [hashEntries, hh, hr] at h
                  cases h
                  have ih2 := ih es2 hr
                  constructor
                  · simp [ih2.1]
                  · intro e hmem
                    rcases List.mem_cons.mp hmem with rfl | hmem2
                    · rfl
                    · exact ih2.2 e hmem2

/-- C6: an explicit metadata argument combined with the reserved metadata
path appearing in the resolved path spec makes manifest construction fail
with the ambiguous metadata error, so no manifest is produced. -/
theorem C6_ambiguous_metadata (fs : Fs) (paths : UserPaths) (md : Json)
    (specs0 : List (String × String))
    (hres : user_paths_to_path_specs fs paths = .ok specs0)
    (hmem : (specs0.lookup ARTIFACT_METADATA_FILENAME).isSome = true) :
    mkLocalArtifactManifestV1 fs paths (some md) = .error .ambiguousMetadata := by
  unfold mkLocalArtifactManifestV1
  rw [hres]
  cases hlk : specs0.lookup ARTIFACT_METADATA_FILENAME with
  | none => rw [hlk] at hmem; simp at hmem
  | some lp => simp [hlk]

/-- C6 witness: a mapping that places a file at the reserved path together
with an explicit metadata document. -/
theorem C6_ambiguous_metadata_witness :
    mkLocalArtifactManifestV1 exFs
      (.dict [("artifact-metadata.json", "/m.json"), ("a.txt", "/a/x.txt")])
      (some Json.null) = .error .ambiguousMetadata :=
  C6_ambiguous_metadata exFs _ Json.null
    [("artifact-metadata.json", "/m.json"), ("a.txt", "/a/x.txt")]
    (by rfl) (by rfl)

/-- C7: when the reserved metadata path appears in the resolved path spec and
no explicit metadata argument is given, the construction removes it from the
path spec, loads it as embedded metadata through from_file rather than
hashing it as a plain file, and the resulting manifest holds exactly one
entry under the reserved path, placed first, with the metadata digest as its
hash and no local path. -/
theorem C7_reserved_metadata_path (fs : Fs) (paths : UserPaths)
    (specs0 : List (String × String)) (lp : String)
    (lm : LocalArtifactManifestV1)
    (hres : user_paths_to_path_specs fs paths = .ok specs0)
    (hnd : (specs0.map Prod.fst).Nodup)
    (hlk : specs0.lookup ARTIFACT_METADATA_FILENAME = some lp)
    (hmk : mkLocalArtifactManifestV1 fs paths none = .ok lm) :
    (∃ doc, ArtifactMetadata.from_file fs lp = .ok doc ∧
      lm.metadata = some doc ∧
      ∃ dg, ArtifactMetadata.digest doc = .ok dg ∧
        lm.local_entries.head? =
          some ⟨ARTIFACT_METADATA_FILENAME, dg, none⟩) ∧
    lm.path_specs =
      specs0.eraseP (fun p => p.1 == ARTIFACT_METADATA_FILENAME) ∧
    lm.local_entries.countP
      (fun e => e.path == ARTIFACT_METADATA_FILENAME) = 1 := by
  unfold mkLocalArtifactManifestV1 at hmk
  simp only [hres, hlk] at hmk
  cases hff : ArtifactMetadata.from_file fs lp with
  | error e => simp [hff] at hmk
  | ok doc =>
      simp only [hff] at hmk
      unfold buildFromSpecs at hmk
      cases hmd : mdEntryList (some doc) with
      | error e => simp [hmd] at hmk
      | ok mdEs =>
          simp only [hmd] at hmk
          cases hhe : hashEntries fs
              (specs0.eraseP (fun p => p.1 == ARTIFACT_METADATA_FILENAME)) with
          | error e => simp [hhe] at hmk
          | ok fileEs =>
              simp only [hhe] at hmk
              cases hdg : ArtifactMetadata.digest doc with
              | error e => simp [mdEntryList, hdg] at hmd
              | ok dg =>
                  have hmdEs : mdEs = [⟨ARTIFACT_METADATA_FILENAME, dg, none⟩] := by
                    simp [mdEntryList, hdg] at hmd
                    exact hmd.symm
                  subst hmdEs
                  cases hmk
                  refine ⟨⟨doc, rfl, rfl, dg, hdg, rfl⟩, rfl, ?_⟩
                  have hpaths := hashEntries_ok_paths fs _ fileEs hhe
                  have hzero : fileEs.countP
                      (fun e => e.path == ARTIFACT_METADATA_FILENAME) = 0 := by
                    rw [List.countP_eq_zero]
                    intro e hmem
                    have hme : e.path ∈ fileEs.map LocalArtifactEntry.path :=
                      List.mem_map.mpr ⟨e, hmem, rfl⟩
                    rw [hpaths.1] at hme
                    rcases List.mem_map.mp hme with ⟨q, hq, hqe⟩
                    have hneq := eraseP_keys_ne ARTIFACT_METADATA_FILENAME hnd q hq
                    simp only [beq_iff_eq]
                    rw [hqe] at hneq
                    exact hneq
                  simp [List.countP_cons, hzero]

/-- C7 witness: a mapping holding the reserved path (backed by the JSON file
/m.json) and one ordinary file yields the example metadata manifest, whose
first and only reserved entry carries the metadata digest and no local path. -/
theorem C7_reserved_metadata_path_witness :
    (∃ doc, ArtifactMetadata.from_file exFs "/m.json" = .ok doc ∧
      exMetaManifest.metadata = some doc ∧
      ∃ dg, ArtifactMetadata.digest doc = .ok dg ∧
        exMetaManifest.local_entries.head? =
          some ⟨ARTIFACT_METADATA_FILENAME, dg, none⟩) ∧
    exMetaManifest.path_specs =
      ([("artifact-metadata.json", "/m.json"), ("a.txt", "/a/x.txt")].eraseP
        (fun p => p.1 == ARTIFACT_METADATA_FILENAME)) ∧
    exMetaManifest.local_entries.countP
      (fun e => e.path == ARTIFACT_METADATA_FILENAME) = 1 :=
  C7_reserved_metadata_path exFs
    (.dict [("artifact-metadata.json", "/m.json"), ("a.txt", "/a/x.txt")])
    [("artifact-metadata.json", "/m.json"), ("a.txt", "/a/x.txt")] "/m.json"
    exMetaManifest (by rfl) (by decide) (by rfl) (by rfl)

/-- A Boolean any is invariant under permutation. -/
theorem any_perm {α : Type} {l₁ l₂ : List α} (hp : l₁.Perm l₂) (f : α → Bool) :
    l₁.any f = l₂.any f := by
  induction hp with
  | nil => rfl
  | cons x h ih => simp [List.any_cons, ih]
  | swap x y l => cases hx : f x <;> cases hy : f y <;> simp [List.any_cons, hx, hy]
  | trans _ _ ih₁ ih₂ => exact ih₁.trans ih₂

/-- The object non-finite test is the any of the per-value test. -/
theorem hasNonFiniteObj_eq_any :
    ∀ (kvs : List (String × Json)),
    hasNonFiniteObj kvs = kvs.any (fun kv => hasNonFinite kv.2) := by
  intro kvs
  induction kvs with
  | nil => rfl
  | cons kv rest ih => simp [hasNonFiniteObj, List.any_cons, ih]

/-- The object canon is a map over the members. -/
theorem canonObj_eq_map :
    ∀ (kvs : List (String × Json)),
    canonObj kvs = kvs.map (fun kv => (kv.1, canon kv.2)) := by
  intro kvs
  induction kvs with
  | nil => rfl
  | cons kv rest ih => simp [canonObj, ih]

/-- A Boolean all is invariant under permutation. -/
theorem all_perm {α : Type} {l₁ l₂ : List α} (hp : l₁.Perm l₂) (f : α → Bool) :
    l₁.all f = l₂.all f := by
  induction hp with
  | nil => rfl
  | cons x h ih => simp [List.all_cons, ih]
  | swap x y l => cases hx : f x <;> cases hy : f y <;> simp [List.all_cons, hx, hy]
  | trans _ _ ih₁ ih₂ => exact ih₁.trans ih₂

/-- The member unique-keys test is the all of the per-value test. -/
theorem objKeysNodupObj_eq_all :
    ∀ (kvs : List (String × Json)),
    objKeysNodupObj kvs = kvs.all (fun kv => objKeysNodup kv.2) := by
  intro kvs
  induction kvs with
  | nil => rfl
  | cons kv rest ih => simp [objKeysNodupObj, List.all_cons, ih]

mutual

/-- Key-order equivalent documents have equal canon forms and agree on the
non-finite test, when the left document has unique keys everywhere. -/
theorem keyOrderEquiv_canon : ∀ {a b : Json}, KeyOrderEquiv a b →
    objKeysNodup a = true →
    canon a = canon b ∧ hasNonFinite a = hasNonFinite b
  | _, _, .refl j, _ => ⟨rfl, rfl⟩
  | _, _, .arr h, hwf => by
      have hl := keyOrderEquivList_canon h (by simpa [objKeysNodup] using hwf)
      exact ⟨by simp only [canon, hl.1], by simp only [hasNonFinite, hl.2]⟩
  | _, _, @KeyOrderEquiv.obj kvs₁ mid kvs₂ hperm hobj, hwf => by
      have hwf2 := hwf
      simp only [objKeysNodup, Bool.and_eq_true] at hwf2
      have hnd : (kvs₁.map Prod.fst).Nodup := of_decide_eq_true hwf2.1
      have hvals₁ : objKeysNodupObj kvs₁ = true := hwf2.2
      rw [objKeysNodupObj_eq_all] at hvals₁
      have hvalsMid : objKeysNodupObj mid = true := by
        rw [objKeysNodupObj_eq_all, ← all_perm hperm]
        exact hvals₁
      have hIH := keyOrderEquivObj_canon hobj hvalsMid
      constructor
      · simp only [canon]
        congr 1
        have hpm : (canonObj kvs₁).Perm (canonObj kvs₂) := by
          rw [← hIH.1, canonObj_eq_map, canonObj_eq_map]
          exact hperm.map _
        refine insertionSort_key_congr Prod.fst hpm ?_
        rw [canonObj_eq_map, List.map_map]
        have heq : (Prod.fst ∘ fun kv : String × Json => (kv.1, canon kv.2)) =
            Prod.fst := rfl
        rw [heq]
        exact hnd
      · simp only [hasNonFinite]
        have h1 : hasNonFiniteObj kvs₁ = hasNonFiniteObj mid := by
          rw [hasNonFiniteObj_eq_any, hasNonFiniteObj_eq_any]
          exact any_perm hperm _
        exact h1.trans hIH.2

/-- Element-wise preservation for array members. -/
theorem keyOrderEquivList_canon : ∀ {xs ys : List Json},
    KeyOrderEquivList xs ys → objKeysNodupList xs = true →
    canonList xs = canonList ys ∧ hasNonFiniteList xs = hasNonFiniteList ys
  | _, _, .nil, _ => ⟨rfl, rfl⟩
  | _, _, .cons hx hrest, hwf => by
      have hwf2 := hwf
      simp only [objKeysNodupList, Bool.and_eq_true] at hwf2
      have h1 := keyOrderEquiv_canon hx hwf2.1
      have h2 := keyOrderEquivList_canon hrest hwf2.2
      exact ⟨by simp only [canonList, h1.1, h2.1],
        by simp only [hasNonFiniteList, h1.2, h2.2]⟩

/-- Pointwise preservation for object members. -/
theorem keyOrderEquivObj_canon : ∀ {l₁ l₂ : List (String × Json)},
    KeyOrderEquivObj l₁ l₂ → objKeysNodupObj l₁ = true →
    canonObj l₁ = canonObj l₂ ∧ hasNonFiniteObj l₁ = hasNonFiniteObj l₂
  | _, _, .nil, _ => ⟨rfl, rfl⟩
  | _, _, .cons hv hrest, hwf => by
      have hwf2 := hwf
      simp only [objKeysNodupObj, Bool.and_eq_true] at hwf2
      have h1 := keyOrderEquiv_canon hv hwf2.1
      have h2 := keyOrderEquivObj_canon hrest hwf2.2
      exact ⟨by simp only [canonObj, h1.1, h2.1],
        by simp only [hasNonFiniteObj, h1.2, h2.2]⟩

end

/-- C8: the canonical metadata serialization sorts object keys at every
depth with fixed whitespace, so serializing the same logical document —
regardless of key insertion order anywhere in the source, including inside
nested objects — yields byte-identical output, and a document containing a
non-finite float fails with the serialization error. -/
theorem C8_canonical_serialization :
    (∀ (a b : Json), KeyOrderEquiv a b → objKeysNodup a = true →
      ArtifactMetadata.dump a = ArtifactMetadata.dump b) ∧
    (∀ j : Json, hasNonFinite j = true →
      ArtifactMetadata.dump j = .error .serialization) := by
  constructor
  · intro a b h hwf
    have hc := keyOrderEquiv_canon h hwf
    unfold ArtifactMetadata.dump
    rw [hc.1, hc.2]
  · intro j hj
    unfold ArtifactMetadata.dump
    rw [hj]
    simp

/-- C8 witness: two copies of the same logical document whose member order
differs both at the top level and inside the nested object dump identically,
and the NaN document is rejected. -/
theorem C8_canonical_serialization_witness :
    ArtifactMetadata.dump
      (Json.obj [("a", Json.obj [("x", Json.int 1), ("y", Json.int 2)]),
                 ("b", Json.int 3)]) =
    ArtifactMetadata.dump
      (Json.obj [("b", Json.int 3),
                 ("a", Json.obj [("y", Json.int 2), ("x", Json.int 1)])]) ∧
    ArtifactMetadata.dump Json.nan = .error .serialization := by
  constructor
  · refine C8_canonical_serialization.1 _ _ ?_ (by decide)
    refine KeyOrderEquiv.obj
      (List.Perm.swap ("b", Json.int 3)
        ("a", Json.obj [("x", Json.int 1), ("y", Json.int 2)]) []) ?_
    refine KeyOrderEquivObj.cons (KeyOrderEquiv.refl _) ?_
    refine KeyOrderEquivObj.cons ?_ KeyOrderEquivObj.nil
    refine KeyOrderEquiv.obj
      (List.Perm.swap ("y", Json.int 2) ("x", Json.int 1) []) ?_
    exact KeyOrderEquivObj.cons (KeyOrderEquiv.refl _)
      (KeyOrderEquivObj.cons (KeyOrderEquiv.refl _) KeyOrderEquivObj.nil)
  · exact C8_canonical_serialization.2 Json.nan (by rfl)

/-- When every file of the specs is present, hashing succeeds entrywise. -/
theorem hashEntries_all_present (fs : Fs) :
    ∀ (specs : List (String × String)),
    (∀ p ∈ specs, (fs.files.lookup p.2).isSome = true) →
    hashEntries fs specs = .ok (specs.map (entryOf fs)) := by
  intro specs
  induction specs with
  | nil => intro _; rfl
  | cons sp rest ih =>
      intro hall
      have hs := hall sp (List.mem_cons_self _ _)
      cases hc : fs.files.lookup sp.2 with
      | none => rw [hc] at hs; cases hs
      | some content =>
          have hrest := ih (fun p hp2 => hall p (List.mem_cons_of_mem _ hp2))
          cases sp with
          | mk ap lp =>
              rw [hc] at hs
              simp only [hashEntries, hash_file]
              rw [show fs.files.lookup lp = some content from hc, hrest]
              simp [entryOf, hc]

/-- When some file of the specs is absent, hashing aborts with the IO error. -/
theorem hashEntries_missing (fs : Fs) :
    ∀ (specs : List (String × String)) (p₀ : String × String), p₀ ∈ specs →
    fs.files.lookup p₀.2 = none → hashEntries fs specs = .error .ioError := by
  intro specs
  induction specs with
  | nil => intro p₀ h; intro _; simp at h
  | cons sp rest ih =>
      intro p₀ hmem hnone
      cases sp with
      | mk ap lp =>
          cases hc : fs.files.lookup lp with
          | none =>
              simp only [hashEntries, hash_file]
              rw [hc]
          | some content =>
              rcases List.mem_cons.mp hmem with rfl | hmem2
              · rw [hnone] at hc; cases hc
              · have hrec := ih p₀ hmem2 hnone
                simp only [hashEntries, hash_file]
                rw [hc, hrec]

/-- The modelled manifest digest depends only on the multiset of entries when
the logical paths are unique. -/
theorem manifestDigest_perm {e₁ e₂ : List LocalArtifactEntry} (hp : e₁.Perm e₂)
    (hnd : (e₁.map LocalArtifactEntry.path).Nodup) :
    ArtifactManifestV1.digest e₁ = ArtifactManifestV1.digest e₂ := by
  unfold ArtifactManifestV1.digest
  rw [insertionSort_key_congr LocalArtifactEntry.path hp hnd]

/-- A non-empty mapping input resolves to itself. -/
theorem resolve_dict_ok (fs : Fs) (m : List (String × String)) (hne : m ≠ []) :
    user_paths_to_path_specs fs (.dict m) = .ok m := by
  have hb : m.isEmpty = false := by
    cases m with
    | nil => exact absurd rfl hne
    | cons a l => rfl
  simp [user_paths_to_path_specs, resolveRaw, hb]

/-- The digest produced by buildFromSpecs is invariant under permutation of
the path specs, keys unique, provided the reserved metadata name is not among
them whenever a metadata document is present (which manifest construction
guarantees). -/
theorem buildFromSpecs_digest_perm (fs : Fs) (md : Option Json)
    {s₁ s₂ : List (String × String)} (hp : s₁.Perm s₂)
    (hnd : (s₁.map Prod.fst).Nodup)
    (hamf : ∀ doc, md = some doc →
      ∀ p ∈ s₁, p.1 ≠ ARTIFACT_METADATA_FILENAME) :
    (buildFromSpecs fs s₁ md).map (fun lm => lm.digest) =
    (buildFromSpecs fs s₂ md).map (fun lm => lm.digest) := by
  have hkeys : ∀ (s : List (String × String)),
      (s.map (entryOf fs)).map LocalArtifactEntry.path = s.map Prod.fst := by
    intro s
    rw [List.map_map]
    rfl
  by_cases hall : ∀ p ∈ s₁, (fs.files.lookup p.2).isSome = true
  · have h₁ := hashEntries_all_present fs s₁ hall
    have h₂ := hashEntries_all_present fs s₂
      (fun p hp2 => hall p (hp.mem_iff.mpr hp2))
    have hperm : (s₁.map (entryOf fs)).Perm (s₂.map (entryOf fs)) :=
      hp.map (entryOf fs)
    cases md with
    | none =>
        simp only [buildFromSpecs, mdEntryList, h₁, h₂, Except.map,
          List.nil_append]
        rw [manifestDigest_perm hperm (by rw [hkeys]; exact hnd)]
    | some doc =>
        cases hdg : ArtifactMetadata.digest doc with
        | error e => simp [buildFromSpecs, mdEntryList, hdg]
        | ok dg =>
            simp only [buildFromSpecs, mdEntryList, hdg, h₁, h₂, Except.map,
              List.singleton_append]
            have hpermAll :
                ((⟨ARTIFACT_METADATA_FILENAME, dg, none⟩ :
                    LocalArtifactEntry) :: s₁.map (entryOf fs)).Perm
                (⟨ARTIFACT_METADATA_FILENAME, dg, none⟩ ::
                  s₂.map (entryOf fs)) :=
              hperm.cons _
            have hndAll :
                (((⟨ARTIFACT_METADATA_FILENAME, dg, none⟩ :
                    LocalArtifactEntry) ::
                  s₁.map (entryOf fs)).map LocalArtifactEntry.path).Nodup := by
              simp only [List.map_cons, hkeys]
              refine List.nodup_cons.mpr ⟨?_, hnd⟩
              intro hcon
              rcases List.mem_map.mp hcon with ⟨q, hq, hqe⟩
              exact hamf doc rfl q hq hqe
            rw [manifestDigest_perm hpermAll hndAll]
  · push_neg at hall
    rcases hall with ⟨p₀, hmem, hming⟩
    have hnone : fs.files.lookup p₀.2 = none := by
      cases hx : fs.files.lookup p₀.2 with
      | none => rfl
      | some c => rw [hx] at hming; simp at hming
    have h₁ := hashEntries_missing fs s₁ p₀ hmem hnone
    have h₂ := hashEntries_missing fs s₂ p₀ (hp.mem_iff.mp hmem) hnone
    cases hmd : mdEntryList md with
    | error e => simp [buildFromSpecs, hmd]
    | ok mdEs => simp [buildFromSpecs, hmd, h₁, h₂]

/-- C9: the manifest digest is invariant under permutation of the path spec
entries, as a pure function of the set of logical path and content hash
pairs: building from the same mapping in two orders, under unique logical
paths, yields manifests of equal digest, errors included. -/
theorem C9_digest_permutation_invariant (fs : Fs) (md : Option Json)
    (m₁ m₂ : List (String × String)) (hp : m₁.Perm m₂)
    (hnd : (m₁.map Prod.fst).Nodup) :
    (mkLocalArtifactManifestV1 fs (.dict m₁) md).map (fun lm => lm.digest) =
    (mkLocalArtifactManifestV1 fs (.dict m₂) md).map (fun lm => lm.digest) := by
  cases m₁ with
  | nil =>
      have h2 : m₂ = [] := hp.symm.eq_nil
      subst h2
      rfl
  | cons a l =>
      have hne₂ : m₂ ≠ [] := by
        intro hcon
        subst hcon
        exact List.cons_ne_nil a l hp.eq_nil
      have hres₁ := resolve_dict_ok fs (a :: l) (List.cons_ne_nil a l)
      have hres₂ := resolve_dict_ok fs m₂ hne₂
      unfold mkLocalArtifactManifestV1
      simp only [hres₁, hres₂]
      have hlk := lookup_perm hp ARTIFACT_METADATA_FILENAME hnd
      cases hl : (a :: l).lookup ARTIFACT_METADATA_FILENAME with
      | some lp =>
          rw [hl] at hlk
          cases md with
          | some m => simp only [hl, ← hlk]
          | none =>
              simp only [hl, ← hlk]
              cases hff : ArtifactMetadata.from_file fs lp with
              | error e => simp [hff]
              | ok doc =>
                  simp only [hff]
                  exact buildFromSpecs_digest_perm fs (some doc)
                    (eraseP_perm_keyed hp ARTIFACT_METADATA_FILENAME hnd)
                    (List.Nodup.sublist
                      ((List.eraseP_sublist _).map Prod.fst) hnd)
                    (fun doc2 _ =>
                      eraseP_keys_ne ARTIFACT_METADATA_FILENAME hnd)
      | none =>
          rw [hl] at hlk
          cases md with
          | some m =>
              simp only [hl, ← hlk]
              exact buildFromSpecs_digest_perm fs (some m) hp hnd
                (fun doc2 _ => (lookup_eq_none_iff _ _).mp hl)
          | none =>
              simp only [hl, ← hlk]
              exact buildFromSpecs_digest_perm fs none hp hnd
                (fun doc2 hcon => by cases hcon)

/-- C9 witness: the two files of exFs supplied in both orders give manifests
with the same digest. -/
theorem C9_digest_permutation_invariant_witness :
    (mkLocalArtifactManifestV1 exFs
      (.dict [("a.txt", "/a/x.txt"), ("b.txt", "/b/x.txt")]) none).map
      (fun lm => lm.digest) =
    (mkLocalArtifactManifestV1 exFs
      (.dict [("b.txt", "/b/x.txt"), ("a.txt", "/a/x.txt")]) none).map
      (fun lm => lm.digest) :=
  C9_digest_permutation_invariant exFs none _ _
    (List.Perm.swap ("b.txt", "/b/x.txt") ("a.txt", "/a/x.txt") []) (by decide)

/-- A wait loop over a snapshot not in READY state never exits, for any
number of iterations. -/
theorem waitLoop_stuck (sa : ServerArtifact) (h : sa.state ≠ "READY") :
    ∀ fuel, waitLoop sa fuel = none := by
  intro fuel
  induction fuel with
  | zero => rfl
  | succ n ih => simp [waitLoop, h, ih]

/-- The dump of a metadata document fails only with the serialization
error. -/
theorem dump_error_classify (md : Json) (e : Err)
    (h : ArtifactMetadata.dump md = .error e) : e = .serialization := by
  unfold ArtifactMetadata.dump at h
  by_cases hnf : hasNonFinite md = true
  · rw [if_pos hnf] at h
    cases h
    rfl
  · rw [if_neg hnf] at h
    cases h

/-- The entry push loop of save fails only with a TypeError (missing
metadata object) or a serialization error (metadata dump). -/
theorem pushEntries_error_classify (lm : LocalArtifactManifestV1) (vid : String) :
    ∀ (es : List LocalArtifactEntry) (er : Err),
    (pushEntries lm vid es).1 = .error er →
    er = .typeError ∨ er = .serialization := by
  intro es
  induction es with
  | nil => intro er h; cases h
  | cons e rest ih =>
      intro er h
      by_cases hpath : e.path = ARTIFACT_METADATA_FILENAME
      · rw [pushEntries, if_pos hpath] at h
        cases hmd : lm.metadata with
        | none =>
            simp only [hmd] at h
            cases h
            exact Or.inl rfl
        | some md =>
            simp only [hmd] at h
            cases hdp : ArtifactMetadata.dump md with
            | error e2 =>
                simp only [hdp] at h
                cases h
                exact Or.inr (dump_error_classify md er hdp)
            | ok bytes =>
                simp only [hdp] at h
                exact ih er h
      · rw [pushEntries, if_neg hpath] at h
        exact ih er h

/-- C2: a remote creation call that reports the version as COMMITTED makes
save return that version at once, with no file_changed and no
commit_artifact call issued. -/
theorem C2_committed_short_circuit (api : Api) (a : LocalArtifact)
    (nm : String) (h : (saveVersion api a nm).state = "COMMITTED") :
    (LocalArtifact.save api a nm).1 = .ok (saveVersion api a nm) ∧
    (LocalArtifact.save api a nm).2.2 = [] := by
  unfold LocalArtifact.save
  simp [h]

/-- C2 witness: the example coordinator saved against a COMMITTED remote. -/
theorem C2_committed_short_circuit_witness :
    (LocalArtifact.save (exApi "COMMITTED") exArtifact "art").1 =
      .ok (saveVersion (exApi "COMMITTED") exArtifact "art") ∧
    (LocalArtifact.save (exApi "COMMITTED") exArtifact "art").2.2 = [] :=
  C2_committed_short_circuit (exApi "COMMITTED") exArtifact "art" (by rfl)

/-- C3: save raises the unexpected state error exactly when the creation
call returns a state that is neither COMMITTED nor PENDING, and in that case
no file is streamed and no commit is requested. -/
theorem C3_unexpected_state (api : Api) (a : LocalArtifact) (nm : String) :
    ((LocalArtifact.save api a nm).1 = .error .unexpectedState ↔
      ((saveVersion api a nm).state ≠ "COMMITTED" ∧
       (saveVersion api a nm).state ≠ "PENDING")) ∧
    ((saveVersion api a nm).state ≠ "COMMITTED" →
     (saveVersion api a nm).state ≠ "PENDING" →
     (LocalArtifact.save api a nm).2.2 = []) := by
  by_cases hc : (saveVersion api a nm).state = "COMMITTED"
  · constructor
    · simp [LocalArtifact.save, hc]
    · intro h1 _
      exact absurd hc h1
  · by_cases hpd : (saveVersion api a nm).state = "PENDING"
    · constructor
      · cases hpe : pushEntries a.local_manifest (saveVersion api a nm).id
            a.local_manifest.local_entries with
        | mk r calls =>
            cases r with
            | ok u => simp [LocalArtifact.save, hc, hpd, hpe]
            | error er =>
                have h1 : (pushEntries a.local_manifest
                    (saveVersion api a nm).id
                    a.local_manifest.local_entries).1 = .error er := by
                  rw [hpe]
                have hcl := pushEntries_error_classify a.local_manifest
                  (saveVersion api a nm).id a.local_manifest.local_entries er h1
                rcases hcl with h2 | h2 <;> subst h2 <;>
                  simp [LocalArtifact.save, hc, hpd, hpe]
      · intro _ h2
        exact absurd hpd h2
    · constructor
      · simp [LocalArtifact.save, hc, hpd]
      · intro _ _
        simp [LocalArtifact.save, hc, hpd]

/-- C3 witness: a remote answering with the unrecognized state DELETED. -/
theorem C3_unexpected_state_witness :
    (LocalArtifact.save (exApi "DELETED") exArtifact "art").1 =
      .error .unexpectedState ∧
    (LocalArtifact.save (exApi "DELETED") exArtifact "art").2.2 = [] := by
  have h := C3_unexpected_state (exApi "DELETED") exArtifact "art"
  exact ⟨h.1.mpr ⟨by decide, by decide⟩, h.2 (by decide) (by decide)⟩

/-- C1 refutation: after a save that succeeded with the remote version in
PENDING state, wait issues no remote call at all — its loop body only
sleeps — and never returns within any number of loop iterations, because
the stored snapshot is never refreshed and so can never read READY. -/
theorem C1_wait_never_polls (api : Api) (a : LocalArtifact) (nm : String)
    (h : (saveVersion api a nm).state = "PENDING")
    (hok : (LocalArtifact.save api a nm).1 = .ok (saveVersion api a nm)) :
    ∀ fuel,
      ((LocalArtifact.save api a nm).2.1).wait fuel = .ok (none, []) := by
  intro fuel
  have ha2 : (LocalArtifact.save api a nm).2.1.server_artifact =
      some (saveVersion api a nm) := by
    unfold LocalArtifact.save
    by_cases h1 : (saveVersion api a nm).state = "COMMITTED"
    · simp [h1]
    · by_cases h2 : (saveVersion api a nm).state = "PENDING"
      · cases hpe : pushEntries a.local_manifest (saveVersion api a nm).id
            a.local_manifest.local_entries with
        | mk r calls => cases r <;> simp [h1, h2, hpe]
      · simp [h1, h2]
  unfold LocalArtifact.wait
  simp only [ha2]
  rw [waitLoop_stuck _ (by simp [h]) fuel]

/-- C1 witness: the concrete coordinator saved against a PENDING remote
observes a stuck, call-free wait at seven iterations. -/
theorem C1_wait_never_polls_witness :
    ((LocalArtifact.save (exApi "PENDING") exArtifact "art").2.1).wait 7 =
      .ok (none, []) :=
  C1_wait_never_polls (exApi "PENDING") exArtifact "art" (by rfl) (by rfl) 7

/-- C4 (amended): wait fails with the not-saved error exactly on a
coordinator whose server artifact snapshot has never been stored, that is
before any save call; a save attempt that failed after the creation call has
already stored the snapshot and escapes this check. -/
theorem C4_wait_before_save (a : LocalArtifact) (fuel : Nat)
    (h : a.server_artifact = none) :
    a.wait fuel = .error .notSaved := by
  unfold LocalArtifact.wait
  rw [h]

/-- C4 witness: the fresh example coordinator. -/
theorem C4_wait_before_save_witness :
    exArtifact.wait 3 = .error .notSaved :=
  C4_wait_before_save exArtifact 3 (by rfl)

/-- C4 counterexample: a save against a remote answering with the
unrecognized state READY raises, so no successful save has been performed,
yet the following wait returns normally instead of failing with the
not-saved error, because the failed save already stored the snapshot. -/
theorem C4_wait_before_save_counterexample :
    (LocalArtifact.save (exApi "READY") exArtifact "art").1 =
      .error .unexpectedState ∧
    ((LocalArtifact.save (exApi "READY") exArtifact "art").2.1).wait 3 =
      .ok (some (), []) :=
  ⟨rfl, rfl⟩

/-- C10: the digest property of a successfully constructed LocalArtifactRead
raises a TypeError instead of returning the manifest digest, because its
body calls the digest string of the manifest as if it were callable. -/
theorem C10_read_digest_raises (fs : Fs) (nm path : String)
    (r : LocalArtifactRead)
    (h : mkLocalArtifactRead fs nm path = .ok r) :
    LocalArtifactRead.digest r = .error .typeError := rfl

/-- C10 witness: the reader built over the single file /a/x.txt. -/
theorem C10_read_digest_raises_witness :
    mkLocalArtifactRead exFs "n" "/a/x.txt" = .ok ⟨"/a", exReadManifest⟩ ∧
    LocalArtifactRead.digest ⟨"/a", exReadManifest⟩ = .error .typeError :=
  ⟨by rfl, C10_read_digest_raises exFs "n" "/a/x.txt" ⟨"/a", exReadManifest⟩
    (by rfl)⟩
